import Mathlib

/-!
Verification of the `rslock` Redlock client (`src/lock.rs`) against its
natural-language specification.

The development shallowly embeds the code of `src/lock.rs`:

* The `f32` arithmetic in the clock-drift computation
  (`(ttl as f32 * CLOCK_DRIFT_FACTOR) as usize + 2`, line 219) is modelled
  exactly: an IEEE-754 binary32 value is represented by the rational it
  denotes, and each operation rounds its exact rational result to 24 bits of
  significand with round-to-nearest, ties-to-even (`roundF32`).
* Store I/O, wall-clock time and randomness are external to the library, so
  one iteration ("attempt") of `exec_or_retry` is driven by an `Attempt`
  record carrying the per-store boolean outcomes of the fan-out, the elapsed
  milliseconds measured for the attempt, and the value drawn by the RNG for
  the backoff.  The engine is a function of the list of such records.
* Fallible operations return `Except`; the `rand` crate's panic on
  `gen_range` over an empty range is modelled by `Option.none` from
  `genRange` and surfaces as `RunError.panicked`.
* The per-store I/O effects (acquire/extend fan-out, rollback fan-out,
  backoff sleep) are recorded in an event trace.
-/

/-! ## Exact model of the binary32 (`f32`) arithmetic used by the code -/

/-- Round a rational to an integer, round-to-nearest with ties to even
(the IEEE-754 default rounding used by Rust for `f32` arithmetic and for
integer-to-float casts). -/
def rndHE (x : ℚ) : ℤ :=
  if x - ⌊x⌋ < 1 / 2 then ⌊x⌋
  else if 1 / 2 < x - ⌊x⌋ then ⌊x⌋ + 1
  else if Even ⌊x⌋ then ⌊x⌋ else ⌊x⌋ + 1

/-- Round a nonnegative rational to the nearest IEEE-754 binary32 value
(24-bit significand), returning the rational denoted by that value.
Our inputs (`usize` TTLs cast to `f32`, and their products with `0.01f32`)
are far inside the normal finite range, so neither subnormals nor overflow
need separate treatment. -/
def roundF32 (q : ℚ) : ℚ :=
  if q ≤ 0 then 0
  else (rndHE (q / 2 ^ (Int.log 2 q - 23)) : ℚ) * 2 ^ (Int.log 2 q - 23)

/-- `CLOCK_DRIFT_FACTOR: f32 = 0.01` (line 12): the binary32 value nearest to
`0.01` is `10737418 · 2⁻³⁰ = 0.00999999977648258209228515625`. -/
def clockDriftFactorF32 : ℚ := 10737418 / 2 ^ 30

/-- Rust's `as usize` cast on a (nonnegative, in-range) `f32`: truncate toward
zero, saturating at `usize::MAX`.  `Nat.floor` maps negative rationals to `0`,
matching the saturation of negative floats to `0` as well. -/
def f32toUsize (q : ℚ) : ℕ := min ⌊q⌋₊ (2 ^ 64 - 1)

/-- The clock-drift allowance of one attempt (line 219):
`let drift = (ttl as f32 * CLOCK_DRIFT_FACTOR) as usize + 2;`. -/
def driftOf (ttl : ℕ) : ℕ :=
  f32toUsize (roundF32 (roundF32 (ttl : ℚ) * clockDriftFactorF32)) + 2

theorem two_le_driftOf (ttl : ℕ) : 2 ≤ driftOf ttl :=
  Nat.le_add_left 2 _

/-! ### Basic properties of the rounding -/

theorem rndHE_le (x : ℚ) : (rndHE x : ℚ) ≤ x + 1 / 2 := by
  have h0 : (⌊x⌋ : ℚ) ≤ x := Int.floor_le x
  unfold rndHE
  split
  · linarith
  · split
    · push_cast; linarith
    · split <;> push_cast <;> linarith

theorem rndHE_ge (x : ℚ) : x - 1 / 2 ≤ (rndHE x : ℚ) := by
  have h0 : (⌊x⌋ : ℚ) ≤ x := Int.floor_le x
  have h1 : x < ⌊x⌋ + 1 := Int.lt_floor_add_one x
  unfold rndHE
  split
  · linarith
  · split
    · push_cast; linarith
    · split <;> push_cast <;> linarith

theorem rndHE_intCast (n : ℤ) : rndHE (n : ℚ) = n := by
  unfold rndHE
  rw [Int.floor_intCast]
  norm_num

theorem rndHE_ge_of_lt {x : ℚ} {j : ℤ} (h : (j : ℚ) - 1 / 2 < x) :
    j ≤ rndHE x := by
  have h1 : ((j - 1 : ℤ) : ℚ) < (rndHE x : ℚ) := by
    have := rndHE_ge x
    push_cast
    linarith
  have h2 : j - 1 < rndHE x := by exact_mod_cast h1
  omega

theorem floor_le_rndHE (x : ℚ) : ⌊x⌋ ≤ rndHE x := by
  unfold rndHE
  split
  · exact le_refl _
  · split
    · omega
    · split <;> omega

theorem roundF32_nonneg (q : ℚ) : 0 ≤ roundF32 q := by
  unfold roundF32
  split
  · exact le_refl 0
  · rename_i h
    have hq : 0 < q := not_le.mp h
    have hpos : (0 : ℚ) < 2 ^ (Int.log 2 q - 23) := zpow_pos (by norm_num) _
    have hx : 0 < q / 2 ^ (Int.log 2 q - 23) := div_pos hq hpos
    have h1 : (0 : ℤ) ≤ rndHE (q / 2 ^ (Int.log 2 q - 23)) := by
      have := floor_le_rndHE (q / 2 ^ (Int.log 2 q - 23))
      have h2 : (0 : ℤ) ≤ ⌊q / 2 ^ (Int.log 2 q - 23)⌋ := Int.floor_nonneg.mpr (le_of_lt hx)
      omega
    exact mul_nonneg (by exact_mod_cast h1) (le_of_lt hpos)

theorem roundF32_le {q : ℚ} (hq : 0 < q) :
    roundF32 q ≤ q + 2 ^ (Int.log 2 q - 24) := by
  unfold roundF32
  rw [if_neg (not_le.mpr hq)]
  set e : ℤ := Int.log 2 q - 23 with he
  have hpos : (0 : ℚ) < 2 ^ e := zpow_pos (by norm_num) _
  have h1 : (rndHE (q / 2 ^ e) : ℚ) ≤ q / 2 ^ e + 1 / 2 := rndHE_le _
  have h2 : (rndHE (q / 2 ^ e) : ℚ) * 2 ^ e ≤ (q / 2 ^ e + 1 / 2) * 2 ^ e :=
    mul_le_mul_of_nonneg_right h1 (le_of_lt hpos)
  have h3 : (q / 2 ^ e + 1 / 2) * 2 ^ e = q + 2 ^ e / 2 := by
    field_simp
    ring
  have h4 : (2 : ℚ) ^ e / 2 = 2 ^ (Int.log 2 q - 24) := by
    rw [he]
    rw [show Int.log 2 q - 23 = (Int.log 2 q - 24) + 1 by ring]
    rw [zpow_add₀ (by norm_num : (2 : ℚ) ≠ 0), zpow_one]
    ring
  rw [h3, h4] at h2
  exact h2

theorem roundF32_ge_int {q : ℚ} (k : ℕ) (hq : 0 < q)
    (he : Int.log 2 q ≤ 23)
    (hk : (k : ℚ) - 2 ^ (Int.log 2 q - 24) < q) :
    (k : ℚ) ≤ roundF32 q := by
  unfold roundF32
  rw [if_neg (not_le.mpr hq)]
  set E : ℤ := Int.log 2 q with hE
  set m : ℕ := (23 - E).toNat with hm
  have hmE : (m : ℤ) = 23 - E := Int.toNat_of_nonneg (by omega)
  have h2ne : (2 : ℚ) ≠ 0 := by norm_num
  have hE23 : (2 : ℚ) ^ (E - 23) = ((2 : ℚ) ^ m)⁻¹ := by
    rw [show E - 23 = -(m : ℤ) by omega, zpow_neg, zpow_natCast]
  have hmpos : (0 : ℚ) < 2 ^ m := by positivity
  -- the scaled significand is greater than `k·2^m − 1/2`
  have hscale : ((k : ℤ) * 2 ^ m : ℚ) - 1 / 2 < q / 2 ^ (E - 23) := by
    have step : ((k : ℚ) - 2 ^ (E - 24)) * 2 ^ m < q * 2 ^ m :=
      mul_lt_mul_of_pos_right hk hmpos
    have h24 : (2 : ℚ) ^ (E - 24) * 2 ^ m = 1 / 2 := by
      rw [show ((2 : ℚ) ^ m) = (2 : ℚ) ^ (m : ℤ) from (zpow_natCast 2 m).symm]
      rw [← zpow_add₀ h2ne, hmE]
      rw [show E - 24 + (23 - E) = -1 by ring]
      norm_num
    have hdiv : q / 2 ^ (E - 23) = q * 2 ^ m := by
      rw [hE23, div_eq_mul_inv, inv_inv]
    rw [hdiv]
    push_cast
    calc (k : ℚ) * 2 ^ m - 1 / 2 = ((k : ℚ) - 2 ^ (E - 24)) * 2 ^ m := by
          rw [sub_mul, h24]
      _ < q * 2 ^ m := step
  have hj : ((k : ℤ) * 2 ^ m) ≤ rndHE (q / 2 ^ (E - 23)) := by
    apply rndHE_ge_of_lt
    exact_mod_cast hscale
  have hpos : (0 : ℚ) < 2 ^ (E - 23) := zpow_pos (by norm_num) _
  have h5 : ((k : ℤ) * 2 ^ m : ℚ) * 2 ^ (E - 23) ≤
      (rndHE (q / 2 ^ (E - 23)) : ℚ) * 2 ^ (E - 23) := by
    apply mul_le_mul_of_nonneg_right _ (le_of_lt hpos)
    exact_mod_cast hj
  have h6 : ((k : ℤ) * 2 ^ m : ℚ) * 2 ^ (E - 23) = (k : ℚ) := by
    push_cast
    rw [mul_assoc, hE23]
    rw [mul_inv_cancel₀ (ne_of_gt hmpos), mul_one]
  rw [h6] at h5
  exact h5

/-- A positive rational whose scaled significand is an integer is an exact
binary32 value: rounding returns it unchanged. -/
theorem roundF32_eq_self {q : ℚ} (hq : 0 < q) (j : ℤ)
    (hj : q / 2 ^ (Int.log 2 q - 23) = (j : ℚ)) : roundF32 q = q := by
  unfold roundF32
  rw [if_neg (not_le.mpr hq), hj, rndHE_intCast, ← hj,
    div_mul_cancel₀ _ (ne_of_gt (zpow_pos (by norm_num : (0:ℚ) < 2) _))]

/-- Natural numbers up to `2^24` are exactly representable in binary32, so
`ttl as f32` is exact for such TTLs. -/
theorem roundF32_natCast_exact {n : ℕ} (h1 : 0 < n) (h2 : n ≤ 2 ^ 24) :
    roundF32 (n : ℚ) = (n : ℚ) := by
  have hq : (0 : ℚ) < n := by exact_mod_cast h1
  have hlog : Int.log 2 ((n : ℚ)) = Nat.log 2 n := Int.log_natCast 2 n
  have hle : Nat.log 2 n ≤ 24 := by
    calc Nat.log 2 n ≤ Nat.log 2 (2 ^ 24) := Nat.log_mono_right h2
      _ = 24 := Nat.log_pow (by norm_num) 24
  by_cases hE : Nat.log 2 n ≤ 23
  · set m : ℕ := 23 - Nat.log 2 n with hm
    apply roundF32_eq_self hq ((n : ℤ) * 2 ^ m)
    rw [hlog]
    rw [show (Nat.log 2 n : ℤ) - 23 = -(m : ℤ) by omega, zpow_neg, zpow_natCast,
      div_eq_mul_inv, inv_inv]
    push_cast
    ring
  · have h24 : Nat.log 2 n = 24 := by omega
    have hn : 2 ^ 24 ≤ n := by
      have hfix := Nat.pow_log_le_self 2 (by omega : n ≠ 0)
      rw [h24] at hfix
      exact hfix
    have hn' : n = 2 ^ 24 := le_antisymm h2 hn
    subst hn'
    apply roundF32_eq_self hq (2 ^ 23)
    rw [hlog, h24]
    rw [show ((24 : ℕ) : ℤ) - 23 = 1 by norm_num, zpow_one]
    push_cast
    norm_num

/-- For every TTL up to `2^24` milliseconds, the `f32` drift computation of
line 219 agrees exactly with `⌊ttl · 0.01⌋ + 2`. -/
theorem drift_small {ttl : ℕ} (h : ttl ≤ 2 ^ 24) : driftOf ttl = ttl / 100 + 2 := by
  rcases Nat.eq_zero_or_pos ttl with h0 | h0
  · subst h0
    norm_num [driftOf, roundF32, f32toUsize, clockDriftFactorF32]
  · unfold driftOf
    rw [roundF32_natCast_exact h0 h]
    set q : ℚ := (ttl : ℚ) * clockDriftFactorF32 with hqdef
    have hc : clockDriftFactorF32 = 10737418 / 2 ^ 30 := rfl
    have httl24 : (ttl : ℚ) ≤ 2 ^ 24 := by exact_mod_cast h
    have httlpos : (0 : ℚ) < ttl := by exact_mod_cast h0
    have hq : 0 < q := by
      rw [hqdef, hc]
      positivity
    set E : ℤ := Int.log 2 q with hE
    have hq18 : q < (2 : ℚ) ^ (18 : ℤ) := by
      have hup : q ≤ (2 : ℚ) ^ 24 * (10737418 / 2 ^ 30) := by
        rw [hqdef, hc]
        exact mul_le_mul_of_nonneg_right httl24 (by norm_num)
      have h18 : ((2 : ℚ) ^ (18 : ℤ)) = 262144 := by
        rw [zpow_ofNat]
        norm_num
      rw [h18]
      calc q ≤ (2 : ℚ) ^ 24 * (10737418 / 2 ^ 30) := hup
        _ < 262144 := by norm_num
    have hE17 : E ≤ 17 := by
      have hlt := (Int.lt_zpow_iff_log_lt (by norm_num : 1 < 2) hq).mp hq18
      omega
    have hq2 : q < (2 : ℚ) ^ (E + 1) := Int.lt_zpow_succ_log_self (by norm_num) q
    set k : ℕ := ttl / 100 with hk
    -- upper estimate: `q` itself is below `k + 99/100`
    have hkub : q ≤ (k : ℚ) + 99 / 100 := by
      have hn : ttl ≤ 100 * k + 99 := by omega
      have hn' : (ttl : ℚ) ≤ 100 * k + 99 := by exact_mod_cast hn
      have hcle : clockDriftFactorF32 ≤ 1 / 100 := by rw [hc]; norm_num
      have : q ≤ (ttl : ℚ) * (1 / 100) :=
        mul_le_mul_of_nonneg_left hcle (le_of_lt httlpos)
      nlinarith
    -- the `f32` value of `0.01` undershoots `1/100` by `3/13421772800` per unit
    have hdlt : (ttl : ℚ) / 100 - q = (ttl : ℚ) * (3 / 13421772800) := by
      have hconst : (1 : ℚ) / 100 - 10737418 / 2 ^ 30 = 3 / 13421772800 := by norm_num
      rw [hqdef, hc]
      linear_combination (ttl : ℚ) * hconst
    have hklb : (k : ℚ) ≤ (ttl : ℚ) / 100 := by
      have hn : k * 100 ≤ ttl := Nat.div_mul_le_self ttl 100
      have hn' : (k : ℚ) * 100 ≤ ttl := by exact_mod_cast hn
      linarith
    have heps : (ttl : ℚ) * (3 / 13421772800) < (2 : ℚ) ^ (E - 24) := by
      have hqd : (ttl : ℚ) * (3 / 13421772800) = q * (3 / 134217725) := by
        have hconst : (10737418 : ℚ) / 2 ^ 30 * (3 / 134217725) = 3 / 13421772800 := by
          norm_num
        rw [hqdef, hc]
        linear_combination (ttl : ℚ) * hconst
      rw [hqd]
      have step1 : q * (3 / 134217725) < (2 : ℚ) ^ (E + 1) * (3 / 134217725) :=
        mul_lt_mul_of_pos_right hq2 (by norm_num)
      have h25 : ((2 : ℚ) ^ (25 : ℤ)) = 33554432 := by
        rw [zpow_ofNat]
        norm_num
      have hsplit : (2 : ℚ) ^ (E + 1) = (2 : ℚ) ^ (E - 24) * 33554432 := by
        rw [← h25, ← zpow_add₀ (by norm_num : (2 : ℚ) ≠ 0),
          show E - 24 + 25 = E + 1 from by ring]
      have hp : (0 : ℚ) < (2 : ℚ) ^ (E - 24) := zpow_pos (by norm_num) _
      have step2 : (2 : ℚ) ^ (E + 1) * (3 / 134217725) < (2 : ℚ) ^ (E - 24) := by
        rw [hsplit]
        nlinarith
      linarith
    have hlow : (k : ℚ) ≤ roundF32 q :=
      roundF32_ge_int k hq (by omega) (by linarith)
    have hup : roundF32 q < (k : ℚ) + 1 := by
      have h1 := roundF32_le hq
      have h2 : (2 : ℚ) ^ (E - 24) ≤ (2 : ℚ) ^ (-7 : ℤ) :=
        zpow_le_zpow_right₀ (by norm_num) (by omega)
      have h3 : ((2 : ℚ) ^ (-7 : ℤ)) = 1 / 128 := by
        rw [show (-7 : ℤ) = -(7 : ℤ) from by norm_num, zpow_neg, zpow_ofNat]
        norm_num
      rw [h3] at h2
      linarith [hkub]
    have hfloor : ⌊roundF32 q⌋₊ = k := by
      rw [Nat.floor_eq_iff (roundF32_nonneg q)]
      exact ⟨hlow, hup⟩
    simp only [f32toUsize]
    have hk64 : k ≤ 2 ^ 64 - 1 := by
      have hkt : k ≤ ttl := Nat.div_le_self ttl 100
      omega
    rw [hfloor, min_eq_left hk64]

/-! ### Concrete evaluation of the rounding -/

theorem rndHE_eq_up {x : ℚ} (f : ℤ) (h1 : (f : ℚ) ≤ x) (h2 : x < f + 1)
    (h3 : 1 / 2 < x - f) : rndHE x = f + 1 := by
  have hf : ⌊x⌋ = f := Int.floor_eq_iff.mpr ⟨h1, h2⟩
  unfold rndHE
  rw [hf, if_neg (by linarith), if_pos h3]

theorem rndHE_eq_down {x : ℚ} (f : ℤ) (h1 : (f : ℚ) ≤ x) (h2 : x < f + 1)
    (h3 : x - f < 1 / 2) : rndHE x = f := by
  have hf : ⌊x⌋ = f := Int.floor_eq_iff.mpr ⟨h1, h2⟩
  unfold rndHE
  rw [hf, if_pos h3]

theorem roundF32_eval {q : ℚ} (e : ℤ) (h1 : (2 : ℚ) ^ e ≤ q)
    (h2 : q < (2 : ℚ) ^ (e + 1)) :
    roundF32 q = (rndHE (q / 2 ^ (e - 23)) : ℚ) * 2 ^ (e - 23) := by
  have hq : 0 < q := lt_of_lt_of_le (zpow_pos (by norm_num) e) h1
  have hlog : Int.log 2 q = e := by
    have ha : e ≤ Int.log 2 q :=
      (Int.zpow_le_iff_le_log (by norm_num) hq).mp (by exact_mod_cast h1)
    have hb : Int.log 2 q < e + 1 :=
      (Int.lt_zpow_iff_log_lt (by norm_num) hq).mp (by exact_mod_cast h2)
    omega
  unfold roundF32
  rw [if_neg (not_le.mpr hq), hlog]

/-- `104857599 as f32` rounds up to `104857600` (the remainder 7 of the
8-wide binary32 grid at this magnitude rounds to the nearer gridpoint). -/
theorem roundF32_at_ce : roundF32 (104857599 : ℚ) = 104857600 := by
  rw [roundF32_eval 26 (by rw [zpow_ofNat]; norm_num)
    (by rw [show (26 : ℤ) + 1 = 27 from by norm_num, zpow_ofNat]; norm_num)]
  rw [show (26 : ℤ) - 23 = 3 from by norm_num,
    show ((2 : ℚ) ^ (3 : ℤ)) = 8 from by rw [zpow_ofNat]; norm_num]
  rw [rndHE_eq_up 13107199 (by norm_num) (by push_cast; norm_num)
    (by push_cast; norm_num)]
  push_cast
  norm_num

/-- The binary32 product `104857600.0f32 * 0.01f32` rounds up across the
integer boundary, to exactly `1048576.0`. -/
theorem roundF32_prod_ce :
    roundF32 ((104857600 : ℚ) * clockDriftFactorF32) = 1048576 := by
  have hq : (104857600 : ℚ) * clockDriftFactorF32 = 134217725 / 128 := by
    unfold clockDriftFactorF32
    norm_num
  rw [hq]
  rw [roundF32_eval 19 (by rw [zpow_ofNat]; norm_num)
    (by rw [show (19 : ℤ) + 1 = 20 from by norm_num, zpow_ofNat]; norm_num)]
  rw [show (19 : ℤ) - 23 = -4 from by norm_num,
    show ((2 : ℚ) ^ (-4 : ℤ)) = 1 / 16 from by
      rw [zpow_neg, zpow_ofNat]; norm_num]
  rw [show ((134217725 : ℚ) / 128) / (1 / 16) = 134217725 / 8 from by norm_num]
  rw [rndHE_eq_up 16777215 (by push_cast; norm_num) (by push_cast; norm_num)
    (by push_cast; norm_num)]
  push_cast
  norm_num

theorem driftOf_def (ttl : ℕ) :
    driftOf ttl =
      f32toUsize (roundF32 (roundF32 (ttl : ℚ) * clockDriftFactorF32)) + 2 :=
  rfl

theorem f32toUsize_def (q : ℚ) : f32toUsize q = min ⌊q⌋₊ (2 ^ 64 - 1) :=
  rfl

/-- At `ttl = 104857599` ms the code's drift value is `1048578`, while
`⌊ttl · 0.01⌋ + 2 = 1048577`. -/
theorem driftOf_at_ce : driftOf 104857599 = 1048578 := by
  rw [driftOf_def]
  rw [show ((104857599 : ℕ) : ℚ) = (104857599 : ℚ) from by norm_num]
  rw [roundF32_at_ce, roundF32_prod_ce, f32toUsize_def]
  rw [show ⌊(1048576 : ℚ)⌋₊ = 1048576 from by
    rw [Nat.floor_eq_iff (by norm_num)]; norm_num]
  norm_num

theorem driftOf_eq_2 : driftOf 2 = 2 := by
  rw [drift_small (by norm_num)]

theorem driftOf_eq_500 : driftOf 500 = 7 := by
  rw [drift_small (by norm_num)]

theorem driftOf_eq_1000 : driftOf 1000 = 12 := by
  rw [drift_small (by norm_num)]

/-! ## Embedding of the lock manager and the acquisition engine -/

/-- `LockError` (lines 32-48).  The payloads of the `Io` and `Redis` variants
are opaque to the control flow modelled here and are dropped. -/
inductive LockError
  | ioErr
  | redisErr
  | unavailable
  | ttlExceeded
  | ttlTooLarge
  deriving DecidableEq

/-- Result of a whole `exec_or_retry` run: either a `LockError`, or the
panic of `thread_rng().gen_range(0..retry_delay)` on an empty range
(`retry_delay == 0`), which aborts the call without producing a value. -/
inductive RunError
  | lockErr (e : LockError)
  | panicked
  deriving DecidableEq

/-- `Lock` (lines 63-74).  The `lock_manager` back-reference only routes a
later `unlock` through the same store set and carries no data of its own, so
it is omitted from the embedding. -/
structure Lock where
  resource : List ℕ
  val : List ℕ
  validity_time : ℕ
  deriving DecidableEq

/-- `LockManager` (lines 54-61).  A `Client` is identified with the URI it
was opened from; `retry_delay: Duration` is kept as its exact `as_millis()`
value (a nonnegative integer that may exceed `u64::MAX`). -/
structure LockManager where
  servers : List String
  quorum : ℕ
  retryCount : ℕ
  retryDelayMs : ℕ
  deriving DecidableEq

/-- `LockManager::new` (lines 105-119): `quorum = (uris.len() as u32) / 2 + 1`.
`uris.len()` is a `usize`, and the `as u32` cast truncates it modulo `2^32`.
Defaults: `retry_count = 3`, `retry_delay = 200 ms`. -/
def LockManager.new (uris : List String) : LockManager :=
  ⟨uris, uris.length % 2 ^ 32 / 2 + 1, 3, 200⟩

/-- `LockManager::set_retry` (lines 134-137). -/
def LockManager.set_retry (m : LockManager) (count : ℕ) (delayMs : ℕ) :
    LockManager :=
  ⟨m.servers, m.quorum, count, delayMs⟩

/-- One iteration of the retry loop as seen from the outside world: the
per-store boolean outcomes of the fan-out, the elapsed wall-clock
milliseconds measured for the attempt (the value of
`elapsed.as_secs() as usize * 1000 + elapsed.subsec_nanos() as usize / 1_000_000`),
and the value produced by the thread RNG for the backoff draw. -/
structure Attempt where
  results : List Bool
  elapsedMs : ℕ
  rand : ℕ
  deriving DecidableEq

/-- The I/O effects of a run, in order: a fan-out of the per-store operation
over all stores, a rollback fan-out of `unlock_instance` over all stores, or
a backoff sleep of the given number of milliseconds. -/
inductive Event
  | fanout
  | rollback
  | sleep (ms : ℕ)
  deriving DecidableEq

/-- The fold of line 217:
`fold(0, |count, locked| if locked { count + 1 } else { count })`, on a `u32`
counter (release-mode wrapping semantics for the increment). -/
def countTrue (results : List Bool) : ℕ :=
  results.foldl (fun count locked => if locked then (count + 1) % 2 ^ 32 else count) 0

/-- `rand`'s `gen_range(lo..hi)` (line 252): uniform over `[lo, hi)`; an
empty range makes the sampler panic, modelled by `none`.  The value `r`
supplied by the environment selects the sample. -/
def genRange (lo hi r : ℕ) : Option ℕ :=
  if lo < hi then some (lo + r % (hi - lo)) else none

/-- The loop of `exec_or_retry` (lines 212-257), driven by one `Attempt`
record per iteration; the length of the list plays the role of
`retry_count`.  Returns the result together with the trace of I/O effects.
In source order: fan-out and success count; drift and elapsed time;
`TtlExceeded` guard (early return, before any rollback); quorum-and-validity
test (early return of the lock on success); rollback fan-out; conversion of
`retry_delay.as_millis()` to `u64` (`TtlTooLarge` on overflow); randomized
backoff sleep; next iteration, or `Unavailable` once iterations run out. -/
def execOrRetryList (quorum ttl retryDelayMs : ℕ) (resource value : List ℕ) :
    List Attempt → Except RunError Lock × List Event
  | [] => (Except.error (RunError.lockErr LockError.unavailable), [])
  | a :: rest =>
    let n := countTrue a.results
    let drift := driftOf ttl
    let elapsed_ms := a.elapsedMs
    if ttl ≤ drift + elapsed_ms then
      (Except.error (RunError.lockErr LockError.ttlExceeded), [Event.fanout])
    else
      let validity_time := ttl - drift - elapsed_ms
      if quorum ≤ n ∧ 0 < validity_time then
        (Except.ok ⟨resource, value, validity_time⟩, [Event.fanout])
      else
        if retryDelayMs < 2 ^ 64 then
          match genRange 0 retryDelayMs a.rand with
          | some d =>
            let r := execOrRetryList quorum ttl retryDelayMs resource value rest
            (r.1, Event.fanout :: Event.rollback :: Event.sleep d :: r.2)
          | none =>
            (Except.error RunError.panicked, [Event.fanout, Event.rollback])
        else
          (Except.error (RunError.lockErr LockError.ttlTooLarge),
            [Event.fanout, Event.rollback])

/-- `exec_or_retry` at the manager level: `for _ in 0..self.retry_count`
performs at most `retry_count` iterations, so a run consumes at most the
first `retry_count` attempt records offered by the environment. -/
def LockManager.execOrRetry (m : LockManager) (resource value : List ℕ)
    (ttl : ℕ) (attempts : List Attempt) : Except RunError Lock × List Event :=
  execOrRetryList m.quorum ttl m.retryDelayMs resource value
    (attempts.take m.retryCount)

/-- `LockManager::lock` (lines 281-292): generate a fresh 20-byte value
(supplied here by the environment as `value`), convert the TTL to integral
milliseconds — `as_millis().try_into()` from `u128` to the 64-bit `usize`
fails with `TtlTooLarge` from `usize::MAX + 1` up — then run the engine with
`lock_instance` as the per-store operation. -/
def LockManager.lock (m : LockManager) (resource value : List ℕ) (ttlMs : ℕ)
    (attempts : List Attempt) : Except RunError Lock × List Event :=
  if ttlMs < 2 ^ 64 then m.execOrRetry resource value ttlMs attempts
  else (Except.error (RunError.lockErr LockError.ttlTooLarge), [])

/-- `LockManager::extend` (lines 330-344): the same conversion, then the
engine with `extend_lock_instance` as the per-store operation, reusing the
lock's resource and value. -/
def LockManager.extend (m : LockManager) (lk : Lock) (ttlMs : ℕ)
    (attempts : List Attempt) : Except RunError Lock × List Event :=
  if ttlMs < 2 ^ 64 then m.execOrRetry lk.resource lk.val ttlMs attempts
  else (Except.error (RunError.lockErr LockError.ttlTooLarge), [])

/-- `LockManager::acquire_no_guard` (lines 315-327), abstracted over the
sequence of outcomes of the successive `self.lock(...)` calls it makes;
`none` means the loop is still running after consuming the whole (finite)
prefix of outcomes. -/
def acquireNoGuard : List (Except LockError Lock) → Option (Except LockError Lock)
  | [] => none
  | Except.ok l :: _ => some (Except.ok l)
  | Except.error LockError.ttlTooLarge :: _ =>
    some (Except.error LockError.ttlTooLarge)
  | Except.error _ :: rest => acquireNoGuard rest

/-! ## Engine lemmas -/

/-- Shape of every successful engine run: the lock is built (line 232-237)
from the `resource` and `value` arguments and the validity window
`ttl - drift - elapsed_ms` of the attempt that reached quorum, an attempt
that passed the `TtlExceeded` guard. -/
theorem execOrRetryList_ok {q ttl d : ℕ} {res val : List ℕ}
    {attempts : List Attempt} {lk : Lock}
    (h : (execOrRetryList q ttl d res val attempts).1 = Except.ok lk) :
    lk.resource = res ∧ lk.val = val ∧
      ∃ a ∈ attempts, ¬ ttl ≤ driftOf ttl + a.elapsedMs ∧
        lk.validity_time = ttl - driftOf ttl - a.elapsedMs := by
  induction attempts with
  | nil => simp [execOrRetryList] at h
  | cons a rest ih =>
    simp only [execOrRetryList] at h
    split at h
    · simp at h
    · next h1 =>
      split at h
      · next h2 =>
        simp only [Prod.fst] at h
        rw [Except.ok.injEq] at h
        subst h
        exact ⟨rfl, rfl, a, by simp, h1, rfl⟩
      · split at h
        · split at h
          · next x hg =>
            simp only [Prod.fst] at h
            rcases ih h with ⟨hres, hval, b, hb, hcond, hv⟩
            exact ⟨hres, hval, b, by simp [hb], hcond, hv⟩
          · simp at h
        · simp at h

/-- If every attempt of a run both clears the `TtlExceeded` guard and fails
the quorum-and-validity test, and the retry delay converts to `u64` and
yields a nonempty `gen_range`, the run exhausts its attempts and fails with
`Unavailable`. -/
theorem execOrRetryList_unavailable {q ttl d : ℕ} {res val : List ℕ}
    {attempts : List Attempt} (hd1 : 0 < d) (hd2 : d < 2 ^ 64)
    (hA : ∀ a ∈ attempts, ¬ ttl ≤ driftOf ttl + a.elapsedMs)
    (hB : ∀ a ∈ attempts,
      ¬ (q ≤ countTrue a.results ∧ 0 < ttl - driftOf ttl - a.elapsedMs)) :
    (execOrRetryList q ttl d res val attempts).1 =
      Except.error (RunError.lockErr LockError.unavailable) := by
  induction attempts with
  | nil => rfl
  | cons a rest ih =>
    simp only [execOrRetryList]
    rw [if_neg (hA a (by simp)), if_neg (hB a (by simp)), if_pos hd2]
    have hg : genRange 0 d a.rand = some (0 + a.rand % (d - 0)) := by
      unfold genRange
      rw [if_pos (by omega)]
    rw [hg]
    exact ih (fun b hb => hA b (by simp [hb])) (fun b hb => hB b (by simp [hb]))

/-- A run performs one per-store fan-out per attempt consumed, hence at most
as many fan-outs as attempt records offered. -/
theorem execOrRetryList_fanout_le (q ttl d : ℕ) (res val : List ℕ)
    (attempts : List Attempt) :
    (execOrRetryList q ttl d res val attempts).2.count Event.fanout ≤
      attempts.length := by
  induction attempts with
  | nil => simp [execOrRetryList]
  | cons a rest ih =>
    simp only [execOrRetryList]
    split
    · simp
    · split
      · simp
      · split
        · split
          · next x hg =>
            simp [List.count_cons]
            omega
          · simp
        · simp

/-- Lines 223-225: once `ttl <= drift + elapsed_ms` holds for the attempt at
hand, the call returns `Err(LockError::TtlExceeded)` at once — no rollback,
no sleep, no further iteration, whatever attempts were still budgeted. -/
theorem execOrRetryList_ttl_exceeded {q ttl d : ℕ} {res val : List ℕ}
    {a : Attempt} (rest : List Attempt)
    (h : ttl ≤ driftOf ttl + a.elapsedMs) :
    execOrRetryList q ttl d res val (a :: rest) =
      (Except.error (RunError.lockErr LockError.ttlExceeded), [Event.fanout]) := by
  simp only [execOrRetryList]
  rw [if_pos h]

/-- A rollback fan-out appears in the trace only if some attempt passed the
`TtlExceeded` guard and then failed the quorum-and-validity test (the `else`
branch of lines 238-245). -/
theorem execOrRetryList_rollback_src {q ttl d : ℕ} {res val : List ℕ}
    {attempts : List Attempt}
    (h : Event.rollback ∈ (execOrRetryList q ttl d res val attempts).2) :
    ∃ b ∈ attempts, ¬ ttl ≤ driftOf ttl + b.elapsedMs ∧
      ¬ (q ≤ countTrue b.results ∧ 0 < ttl - driftOf ttl - b.elapsedMs) := by
  cases attempts with
  | nil => simp [execOrRetryList] at h
  | cons a rest =>
    simp only [execOrRetryList] at h
    split at h
    · simp at h
    · next h1 =>
      split at h
      · simp at h
      · next h2 => exact ⟨a, by simp, h1, h2⟩

/-- Every backoff sleep in a trace lasts strictly less than the configured
retry delay (line 252-253: `gen_range(0..retry_delay)`). -/
theorem execOrRetryList_sleep_lt {q ttl d : ℕ} {res val : List ℕ}
    {attempts : List Attempt} {x : ℕ}
    (h : Event.sleep x ∈ (execOrRetryList q ttl d res val attempts).2) :
    x < d := by
  induction attempts with
  | nil => simp [execOrRetryList] at h
  | cons a rest ih =>
    simp only [execOrRetryList] at h
    split at h
    · simp at h
    · split at h
      · simp at h
      · split at h
        · split at h
          · next y hg =>
            simp at h
            rcases h with hxy | hmem
            · unfold genRange at hg
              split at hg
              · next hdpos =>
                rw [Option.some.injEq] at hg
                have hmod : a.rand % (d - 0) < d - 0 := Nat.mod_lt _ (by omega)
                omega
              · exact absurd hg (by simp)
            · exact ih hmem
          · simp at h
        · simp at h

/-! ## Claims -/

/-- Concrete successful run used by witnesses: one store, quorum 1,
`ttl = 1000` ms, 5 ms elapsed, first attempt acquires. -/
theorem execOrRetryList_success (q ttl d : ℕ) (res val : List ℕ)
    (a : Attempt) (rest : List Attempt)
    (h1 : ¬ ttl ≤ driftOf ttl + a.elapsedMs)
    (h2 : q ≤ countTrue a.results ∧ 0 < ttl - driftOf ttl - a.elapsedMs) :
    execOrRetryList q ttl d res val (a :: rest) =
      (Except.ok ⟨res, val, ttl - driftOf ttl - a.elapsedMs⟩, [Event.fanout]) := by
  simp only [execOrRetryList]
  rw [if_neg h1, if_pos h2]

theorem execOrRetryList_panic (q ttl d : ℕ) (res val : List ℕ)
    (a : Attempt) (rest : List Attempt)
    (h1 : ¬ ttl ≤ driftOf ttl + a.elapsedMs)
    (h2 : ¬ (q ≤ countTrue a.results ∧ 0 < ttl - driftOf ttl - a.elapsedMs))
    (h3 : d < 2 ^ 64) (h4 : genRange 0 d a.rand = none) :
    execOrRetryList q ttl d res val (a :: rest) =
      (Except.error RunError.panicked, [Event.fanout, Event.rollback]) := by
  simp only [execOrRetryList]
  rw [if_neg h1, if_neg h2, if_pos h3, h4]

theorem exec_eval_ok (res val : List ℕ) :
    execOrRetryList 1 1000 200 res val [⟨[true], 5, 0⟩] =
      (Except.ok ⟨res, val, 983⟩, [Event.fanout]) := by
  rw [execOrRetryList_success 1 1000 200 res val ⟨[true], 5, 0⟩ []
    (by rw [driftOf_eq_1000]; decide)
    ⟨by decide, by rw [driftOf_eq_1000]; decide⟩]
  rw [driftOf_eq_1000]
  rfl

/-- C1: every acquisition or extension that returns a lock descriptor
successfully — `exec_or_retry`, reached from `lock`, from
`acquire_no_guard`'s iterated `lock` calls, or from `extend` — yields a
descriptor with `0 < validity_time < ttl`, where `ttl` is the requested TTL
converted to integer milliseconds. -/
theorem claim1_validity_window (q ttl d : ℕ) (res val : List ℕ)
    (attempts : List Attempt) (m : LockManager) (ttlMs : ℕ) (lk : Lock) :
    ((execOrRetryList q ttl d res val attempts).1 = Except.ok lk →
      0 < lk.validity_time ∧ lk.validity_time < ttl) ∧
    ((m.lock res val ttlMs attempts).1 = Except.ok lk →
      0 < lk.validity_time ∧ lk.validity_time < ttlMs) ∧
    (∀ lkIn : Lock, (m.extend lkIn ttlMs attempts).1 = Except.ok lk →
      0 < lk.validity_time ∧ lk.validity_time < ttlMs) := by
  have core : ∀ (q1 t1 d1 : ℕ) (r1 v1 : List ℕ) (at1 : List Attempt),
      (execOrRetryList q1 t1 d1 r1 v1 at1).1 = Except.ok lk →
      0 < lk.validity_time ∧ lk.validity_time < t1 := by
    intro q1 t1 d1 r1 v1 at1 h
    rcases execOrRetryList_ok h with ⟨-, -, a, -, hcond, hv⟩
    have h2 := two_le_driftOf t1
    omega
  refine ⟨core _ _ _ _ _ _, ?_, ?_⟩
  · intro h
    unfold LockManager.lock at h
    split at h
    · exact core _ _ _ _ _ _ h
    · simp at h
  · intro lkIn h
    unfold LockManager.extend at h
    split at h
    · exact core _ _ _ _ _ _ h
    · simp at h

theorem claim1_witness :
    0 < (Lock.mk [7] [9] 983).validity_time ∧
      (Lock.mk [7] [9] 983).validity_time < 1000 :=
  (claim1_validity_window 1 1000 200 [7] [9] [⟨[true], 5, 0⟩]
    (LockManager.new ["a"]) 1000 ⟨[7], [9], 983⟩).1 (by rw [exec_eval_ok])

/-- C2 (amended): on every attempt, `drift_ms = ⌊ttl_ms · 0.01⌋ + 2` holds
exactly for all `ttl_ms ≤ 2^24`; beyond that the binary32 arithmetic of
line 219 can deviate from the exact floor (see `claim2_counterexample`). -/
theorem claim2_drift_formula (ttl : ℕ) (h : ttl ≤ 2 ^ 24) :
    driftOf ttl = ttl / 100 + 2 :=
  drift_small h

/-- C2 counterexample: at `ttl = 104857599` ms the code computes drift
`1048578` — `104857599 as f32` rounds to `104857600.0`, whose product with
`0.01f32` rounds up across an integer boundary to `1048576.0` — while the
claimed `⌊ttl · 0.01⌋ + 2 = 104857599 / 100 + 2` is `1048577`. -/
theorem claim2_counterexample :
    driftOf 104857599 = 1048578 ∧ 104857599 / 100 + 2 = 1048577 :=
  ⟨driftOf_at_ce, by norm_num⟩

theorem claim2_witness : 1000 ≤ 2 ^ 24 ∧ driftOf 1000 = 1000 / 100 + 2 :=
  ⟨by norm_num, claim2_drift_formula 1000 (by norm_num)⟩

/-- C3: in any attempt, if `ttl ≤ drift + elapsed_ms` after the fan-out
completes, the whole call fails right there with `TtlExceeded`: no quorum
decision, no rollback, no sleep, and no further attempt regardless of the
remaining budget `rest`. -/
theorem claim3_ttl_exceeded_aborts (q ttl d : ℕ) (res val : List ℕ)
    (a : Attempt) (rest : List Attempt)
    (h : ttl ≤ driftOf ttl + a.elapsedMs) :
    execOrRetryList q ttl d res val (a :: rest) =
      (Except.error (RunError.lockErr LockError.ttlExceeded), [Event.fanout]) :=
  execOrRetryList_ttl_exceeded rest h

theorem claim3_witness :
    execOrRetryList 1 2 200 [1] [2] [⟨[true], 0, 0⟩] =
      (Except.error (RunError.lockErr LockError.ttlExceeded), [Event.fanout]) :=
  claim3_ttl_exceeded_aborts 1 2 200 [1] [2] ⟨[true], 0, 0⟩ []
    (by rw [driftOf_eq_2]; decide)

/-- C4 (amended): for `retry_delay ≥ 1` ms the backoff is a sample of
`gen_range(0..retry_delay)`: every sampled delay lies in `[0, retry_delay)`,
every value of that interval is attainable, and every sleep the engine ever
performs is shorter than `retry_delay`.  When `retry_delay = 0` the range is
empty and `gen_range` panics rather than yielding a 0 ms delay (see
`claim4_counterexample`). -/
theorem claim4_backoff_range (d r t : ℕ) (hd : 0 < d) (ht : t < d) :
    (∃ x, genRange 0 d r = some x ∧ x < d) ∧
    (∃ r1, genRange 0 d r1 = some t) ∧
    (∀ (q ttl : ℕ) (res val : List ℕ) (attempts : List Attempt) (x : ℕ),
      Event.sleep x ∈ (execOrRetryList q ttl d res val attempts).2 → x < d) := by
  refine ⟨⟨0 + r % (d - 0), ?_, ?_⟩, ⟨t, ?_⟩, ?_⟩
  · unfold genRange
    rw [if_pos (by omega)]
  · have hmod : r % (d - 0) < d - 0 := Nat.mod_lt _ (by omega)
    omega
  · have hm : t % (d - 0) = t := Nat.mod_eq_of_lt (by omega)
    unfold genRange
    rw [if_pos (by omega), hm, Nat.zero_add]
  · intro q ttl res val attempts x hx
    exact execOrRetryList_sleep_lt hx

/-- C4 counterexample: with `retry_delay = 0` a failed attempt reaches
`gen_range(0..0)`, which panics — the backoff step does not complete with a
0 ms delay. -/
theorem claim4_counterexample :
    genRange 0 0 9 = none ∧
    execOrRetryList 1 500 0 [3] [4] [⟨[false], 1, 9⟩] =
      (Except.error RunError.panicked, [Event.fanout, Event.rollback]) := by
  refine ⟨rfl, ?_⟩
  rw [execOrRetryList_panic 1 500 0 [3] [4] ⟨[false], 1, 9⟩ []
    (by rw [driftOf_eq_500]; decide)
    (by intro hcon; exact absurd hcon.1 (by decide))
    (by decide) rfl]

theorem claim4_witness :
    (∃ x, genRange 0 3 7 = some x ∧ x < 3) ∧
    (∃ r1, genRange 0 3 r1 = some 2) ∧
    (∀ (q ttl : ℕ) (res val : List ℕ) (attempts : List Attempt) (x : ℕ),
      Event.sleep x ∈ (execOrRetryList q ttl 3 res val attempts).2 → x < 3) :=
  claim4_backoff_range 3 7 2 (by decide) (by decide)

/-- C5 (amended): for every manager built by `new` from `N < 2^32` endpoints
the quorum equals `⌊N/2⌋ + 1`; it is computed once at construction, and
`set_retry` leaves it (and the store set) unchanged.  For `N ≥ 2^32` the
`as u32` cast of `uris.len()` truncates, so the stored quorum differs from
`⌊N/2⌋ + 1` (see `claim5_counterexample`). -/
theorem LockManager_new_quorum (uris : List String) :
    (LockManager.new uris).quorum = uris.length % 2 ^ 32 / 2 + 1 :=
  rfl

theorem set_retry_quorum (m : LockManager) (count delayMs : ℕ) :
    (m.set_retry count delayMs).quorum = m.quorum :=
  rfl

theorem claim5_quorum (uris : List String) (h : uris.length < 2 ^ 32)
    (count delayMs : ℕ) :
    (LockManager.new uris).quorum = uris.length / 2 + 1 ∧
    ((LockManager.new uris).set_retry count delayMs).quorum =
      uris.length / 2 + 1 := by
  have hm : uris.length % 2 ^ 32 = uris.length := Nat.mod_eq_of_lt h
  constructor
  · rw [LockManager_new_quorum, hm]
  · rw [set_retry_quorum, LockManager_new_quorum, hm]

/-- C5 counterexample: a manager constructed over `2^32` endpoints stores
quorum `1` (`uris.len() as u32` is `0`), not `⌊2^32 / 2⌋ + 1 = 2147483649`. -/
theorem claim5_counterexample :
    (LockManager.new (List.replicate (2 ^ 32) "r")).quorum = 1 ∧
    (2 ^ 32 : ℕ) / 2 + 1 = 2147483649 := by
  constructor
  · rw [LockManager_new_quorum, List.length_replicate]
    norm_num
  · norm_num

theorem claim5_witness :
    (LockManager.new ["a", "b", "c"]).quorum = ["a", "b", "c"].length / 2 + 1 ∧
    ((LockManager.new ["a", "b", "c"]).set_retry 5 7).quorum =
      ["a", "b", "c"].length / 2 + 1 :=
  claim5_quorum ["a", "b", "c"] (by decide) 5 7

/-- C6: `acquire_no_guard` surfaces only `TtlTooLarge`: a successful `lock`
iteration ends the loop with that lock, a `TtlTooLarge` error ends it with
that error, every other error (`Io`, `Redis`, `Unavailable`, `TtlExceeded`)
makes the loop iterate again, and consequently any error the loop ever
returns is `TtlTooLarge`. -/
theorem claim6_blocking_surface (outcomes rest : List (Except LockError Lock))
    (l : Lock) (e : LockError) :
    acquireNoGuard (Except.ok l :: rest) = some (Except.ok l) ∧
    acquireNoGuard (Except.error LockError.ttlTooLarge :: rest) =
      some (Except.error LockError.ttlTooLarge) ∧
    (e ≠ LockError.ttlTooLarge →
      acquireNoGuard (Except.error e :: rest) = acquireNoGuard rest) ∧
    (∀ e1, acquireNoGuard outcomes = some (Except.error e1) →
      e1 = LockError.ttlTooLarge) := by
  refine ⟨rfl, rfl, ?_, ?_⟩
  · intro he
    cases e <;> simp [acquireNoGuard] at he ⊢
  · induction outcomes with
    | nil =>
      intro e1 h
      simp [acquireNoGuard] at h
    | cons o rest2 ih =>
      intro e1 h
      match o with
      | Except.ok l2 => simp [acquireNoGuard] at h
      | Except.error LockError.ttlTooLarge =>
        simp [acquireNoGuard] at h
        exact h.symm
      | Except.error LockError.ioErr =>
        simp only [acquireNoGuard] at h
        exact ih e1 h
      | Except.error LockError.redisErr =>
        simp only [acquireNoGuard] at h
        exact ih e1 h
      | Except.error LockError.unavailable =>
        simp only [acquireNoGuard] at h
        exact ih e1 h
      | Except.error LockError.ttlExceeded =>
        simp only [acquireNoGuard] at h
        exact ih e1 h

theorem claim6_witness :
    acquireNoGuard [Except.error LockError.unavailable,
      Except.ok (Lock.mk [1] [2] 5)] = some (Except.ok (Lock.mk [1] [2] 5)) := by
  have h1 := (claim6_blocking_surface [] [Except.ok (Lock.mk [1] [2] 5)]
    (Lock.mk [1] [2] 5) LockError.unavailable).2.2.1 (by decide)
  rw [h1]
  exact (claim6_blocking_surface [] [] (Lock.mk [1] [2] 5)
    LockError.unavailable).1

/-- C7 (amended): the engine performs at most `retry_count` fan-outs; when
the retry delay is at least one millisecond and fits `u64`, a run whose
attempts all clear the `TtlExceeded` guard yet fail the quorum test
exhausts the budget and fails with `Unavailable`; and with `retry_count = 0`
it returns `Unavailable` immediately with no fan-out at all.  (With
`retry_delay = 0` the backoff sampler panics instead — see
`claim7_counterexample`.) -/
theorem claim7_retry_budget (m : LockManager) (res val : List ℕ) (ttl : ℕ)
    (attempts : List Attempt) (hd1 : 0 < m.retryDelayMs)
    (hd2 : m.retryDelayMs < 2 ^ 64)
    (hA : ∀ a ∈ attempts, ¬ ttl ≤ driftOf ttl + a.elapsedMs)
    (hB : ∀ a ∈ attempts,
      ¬ (m.quorum ≤ countTrue a.results ∧
          0 < ttl - driftOf ttl - a.elapsedMs)) :
    (m.execOrRetry res val ttl attempts).1 =
      Except.error (RunError.lockErr LockError.unavailable) ∧
    (m.execOrRetry res val ttl attempts).2.count Event.fanout ≤ m.retryCount ∧
    (m.retryCount = 0 → m.execOrRetry res val ttl attempts =
      (Except.error (RunError.lockErr LockError.unavailable), [])) := by
  refine ⟨?_, ?_, ?_⟩
  · unfold LockManager.execOrRetry
    exact execOrRetryList_unavailable hd1 hd2
      (fun a ha => hA a (List.take_subset _ _ ha))
      (fun a ha => hB a (List.take_subset _ _ ha))
  · unfold LockManager.execOrRetry
    have h1 := execOrRetryList_fanout_le m.quorum ttl m.retryDelayMs res val
      (attempts.take m.retryCount)
    have h2 : (attempts.take m.retryCount).length ≤ m.retryCount := by
      rw [List.length_take]
      exact min_le_left _ _
    omega
  · intro h0
    unfold LockManager.execOrRetry
    rw [h0, List.take_zero]
    rfl

/-- C7 counterexample: `retry_count = 1`, `retry_delay = 0`: the single
attempt fails quorum, so the budget is exhausted with no quorum success, yet
the call panics inside `gen_range(0..0)` instead of returning
`Unavailable`. -/
theorem claim7_counterexample :
    (((LockManager.new ["a"]).set_retry 1 0).execOrRetry [1] [2] 1000
        [⟨[false], 0, 0⟩]).1 = Except.error RunError.panicked ∧
    (((LockManager.new ["a"]).set_retry 1 0).execOrRetry [1] [2] 1000
        [⟨[false], 0, 0⟩]).1 ≠
      Except.error (RunError.lockErr LockError.unavailable) := by
  have he : ((LockManager.new ["a"]).set_retry 1 0).execOrRetry [1] [2] 1000
      [⟨[false], 0, 0⟩] =
      execOrRetryList 1 1000 0 [1] [2] [⟨[false], 0, 0⟩] := rfl
  have hrun : (((LockManager.new ["a"]).set_retry 1 0).execOrRetry [1] [2] 1000
      [⟨[false], 0, 0⟩]) =
      (Except.error RunError.panicked, [Event.fanout, Event.rollback]) := by
    rw [he]
    rw [execOrRetryList_panic 1 1000 0 [1] [2] ⟨[false], 0, 0⟩ []
      (by rw [driftOf_eq_1000]; decide)
      (by intro hcon; exact absurd hcon.1 (by decide))
      (by decide) rfl]
  rw [hrun]
  refine ⟨rfl, ?_⟩
  intro hx
  simp at hx

theorem claim7_witness :
    ((((LockManager.new ["a"]).set_retry 1 100).execOrRetry [1] [2] 1000
        [⟨[false], 0, 0⟩]).1 =
      Except.error (RunError.lockErr LockError.unavailable)) :=
  (claim7_retry_budget ((LockManager.new ["a"]).set_retry 1 100) [1] [2] 1000
    [⟨[false], 0, 0⟩] (by decide) (by decide)
    (by
      intro a ha
      rw [List.mem_singleton] at ha
      subst ha
      rw [driftOf_eq_1000]
      decide)
    (by
      intro a ha
      rw [List.mem_singleton] at ha
      subst ha
      intro hcon
      exact absurd hcon.1 (by decide))).1

/-- `extend` with a TTL that fits `usize` is the engine run on the lock's
resource and value. -/
theorem extend_eq (m : LockManager) (lk : Lock) (ttlMs : ℕ)
    (attempts : List Attempt) (h : ttlMs < 2 ^ 64) :
    m.extend lk ttlMs attempts =
      execOrRetryList m.quorum ttlMs m.retryDelayMs lk.resource lk.val
        (attempts.take m.retryCount) := by
  unfold LockManager.extend LockManager.execOrRetry
  rw [if_pos h]

/-- C8: a successful `extend(lock, ttl)` returns a fresh descriptor with the
same `value` and the same `resource` as the input lock, differing only in
the freshly computed validity window `ttl - drift - elapsed_ms` of the
attempt that reached quorum (the manager back-reference of the new
descriptor is the extending manager itself, line 233). -/
theorem claim8_extend_frame (m : LockManager) (lkIn : Lock) (ttlMs : ℕ)
    (attempts : List Attempt) (lk : Lock)
    (h : (m.extend lkIn ttlMs attempts).1 = Except.ok lk) :
    lk.resource = lkIn.resource ∧ lk.val = lkIn.val ∧
      ∃ a ∈ attempts, ¬ ttlMs ≤ driftOf ttlMs + a.elapsedMs ∧
        lk.validity_time = ttlMs - driftOf ttlMs - a.elapsedMs := by
  unfold LockManager.extend at h
  split at h
  · unfold LockManager.execOrRetry at h
    rcases execOrRetryList_ok h with ⟨h1, h2, a, ha, hc, hv⟩
    exact ⟨h1, h2, a, List.take_subset _ _ ha, hc, hv⟩
  · simp at h

theorem claim8_witness :
    (Lock.mk [1] [2] 983).resource = (Lock.mk [1] [2] 7).resource ∧
    (Lock.mk [1] [2] 983).val = (Lock.mk [1] [2] 7).val ∧
    ∃ a ∈ [(⟨[true], 5, 0⟩ : Attempt)],
      ¬ 1000 ≤ driftOf 1000 + a.elapsedMs ∧
      (Lock.mk [1] [2] 983).validity_time = 1000 - driftOf 1000 - a.elapsedMs :=
  claim8_extend_frame (LockManager.new ["a"]) (Lock.mk [1] [2] 7) 1000
    [⟨[true], 5, 0⟩] (Lock.mk [1] [2] 983)
    (by
      rw [extend_eq _ _ _ _ (by norm_num : (1000 : ℕ) < 2 ^ 64)]
      rw [show (LockManager.new ["a"]).quorum = 1 from by decide,
        show (LockManager.new ["a"]).retryDelayMs = 200 from by decide,
        show (LockManager.new ["a"]).retryCount = 3 from by decide,
        show (Lock.mk [1] [2] 7).resource = [1] from rfl,
        show (Lock.mk [1] [2] 7).val = [2] from rfl,
        show ([(⟨[true], 5, 0⟩ : Attempt)]).take 3 = [⟨[true], 5, 0⟩] from rfl]
      rw [exec_eval_ok])

/-- C9: when an attempt trips the `TtlExceeded` guard, `exec_or_retry`
returns at once without issuing the rollback `try_release` fan-out (its
trace is the single fan-out event), leaving that attempt's per-store
acquisitions in place to expire at their TTL; a rollback fan-out happens
only for an attempt that passed the guard and then failed the
quorum-and-validity test. -/
theorem claim9_rollback_only_on_quorum_failure (q ttl d : ℕ)
    (res val : List ℕ) (a : Attempt) (rest : List Attempt)
    (h : ttl ≤ driftOf ttl + a.elapsedMs) :
    execOrRetryList q ttl d res val (a :: rest) =
      (Except.error (RunError.lockErr LockError.ttlExceeded), [Event.fanout]) ∧
    (∀ attempts : List Attempt,
      Event.rollback ∈ (execOrRetryList q ttl d res val attempts).2 →
      ∃ b ∈ attempts, ¬ ttl ≤ driftOf ttl + b.elapsedMs ∧
        ¬ (q ≤ countTrue b.results ∧ 0 < ttl - driftOf ttl - b.elapsedMs)) :=
  ⟨execOrRetryList_ttl_exceeded rest h,
    fun _ hmem => execOrRetryList_rollback_src hmem⟩

theorem claim9_witness :
    execOrRetryList 2 2 300 [5] [6] [⟨[false], 7, 1⟩] =
      (Except.error (RunError.lockErr LockError.ttlExceeded), [Event.fanout]) :=
  (claim9_rollback_only_on_quorum_failure 2 2 300 [5] [6] ⟨[false], 7, 1⟩ []
    (by rw [driftOf_eq_2]; decide)).1

/-- C10: when `retry_delay.as_millis()` does not fit `u64`, an attempt that
passed the `TtlExceeded` guard and failed the quorum test makes the whole
call fail with `TtlTooLarge` right after that attempt's rollback fan-out —
an error nominally about the TTL, raised by the retry-delay conversion of
lines 247-251, for every value of the `ttl` argument. -/
theorem claim10_delay_overflow (q ttl d : ℕ) (res val : List ℕ) (a : Attempt)
    (rest : List Attempt) (hd : 2 ^ 64 ≤ d)
    (h1 : ¬ ttl ≤ driftOf ttl + a.elapsedMs)
    (h2 : ¬ (q ≤ countTrue a.results ∧ 0 < ttl - driftOf ttl - a.elapsedMs)) :
    execOrRetryList q ttl d res val (a :: rest) =
      (Except.error (RunError.lockErr LockError.ttlTooLarge),
        [Event.fanout, Event.rollback]) := by
  simp only [execOrRetryList]
  rw [if_neg h1, if_neg h2, if_neg (not_lt.mpr hd)]

theorem claim10_witness :
    execOrRetryList 1 1000 (2 ^ 64) [1] [2] [⟨[false], 0, 0⟩] =
      (Except.error (RunError.lockErr LockError.ttlTooLarge),
        [Event.fanout, Event.rollback]) :=
  claim10_delay_overflow 1 1000 (2 ^ 64) [1] [2] ⟨[false], 0, 0⟩ []
    (le_refl _)
    (by rw [driftOf_eq_1000]; decide)
    (by intro hcon; exact absurd hcon.1 (by decide))
